import Mathlib

/-!
Verification of the Event Record Reconciliation Engine of the scrapper-tool
repository: the `Event` data model (`src/models/event.py`), the merge and
deduplication operations (`src/storage/base_storage.py`), the expiry sweep
(`src/storage/excel_storage.py`, `src/storage/google_sheets_storage.py`)
and the date helpers (`src/utils/helpers.py`), shallowly embedded in Lean.

Timestamps (`datetime` values) are modelled as natural numbers (seconds);
one day is 86400 such units.  Date parsing (`dateutil.parser.parse`) and
the ambient clock (`datetime.now()`) are external effects: they are passed
as explicit parameters (`parse : String → Option Nat`, `now : Nat`).
-/

namespace ScrapperTool

/-- The `Event` dataclass of `src/models/event.py`.  `last_updated` is a
timestamp in seconds; `event_id` is the stored identifier string. -/
structure Event where
  event_name : String
  date : String
  venue : String
  city : String
  category : String
  url : String
  source : String
  status : String
  last_updated : Nat
  event_id : String
  deriving DecidableEq, Repr

/-- The list of identifiers appearing in a list of events. -/
def ids (d : List Event) : List String := d.map (fun e => e.event_id)

/-- Lookup of the first event carrying a given identifier, modelling
Python `dict` access keyed by `event_id`. -/
def lookupEvent : List Event → String → Option Event
  | [], _ => none
  | e :: es, k => if e.event_id = k then some e else lookupEvent es k

/-- One step of building a Python `dict` by comprehension: inserting an
event whose key is already present overwrites the stored value in place
(keeping its position); a fresh key is appended at the end. -/
def dictInsert : List Event → Event → List Event
  | [], e => [e]
  | x :: xs, e => if x.event_id = e.event_id then e :: xs else x :: dictInsert xs e

/-- `{event.event_id: event for event in existing_events}` — the dict built
by `BaseStorage.merge_events` from the existing events, in insertion order. -/
def seedDict (existing : List Event) : List Event :=
  existing.foldl dictInsert []

/-- One iteration of the loop in `BaseStorage.merge_events`: if the incoming
event's id is present, the stored record's `status` is set to `"Updated"`
and its `last_updated` to the incoming record's `last_updated`; otherwise
the incoming record is added at the end of the dict. -/
def mergeStep (d : List Event) (e : Event) : List Event :=
  if d.any (fun x => x.event_id = e.event_id) then
    d.map (fun x =>
      if x.event_id = e.event_id then
        { x with status := "Updated", last_updated := e.last_updated }
      else x)
  else d ++ [e]

/-- `BaseStorage.merge_events` (src/storage/base_storage.py, lines 91–115):
seed a dict with the existing events, fold the new events over it, and
return the dict's values in insertion order. -/
def merge_events (new_events existing_events : List Event) : List Event :=
  new_events.foldl mergeStep (seedDict existing_events)

/-- `BaseStorage.deduplicate_events` (src/storage/base_storage.py, lines
77–89): keep the new events whose id is absent from the existing events. -/
def deduplicate_events (new_events existing_events : List Event) : List Event :=
  new_events.filter (fun e => !(existing_events.any (fun x => x.event_id = e.event_id)))

/-- `parse_date` failure/success oracle: `dateutil.parser.parse` is an
external collaborator, modelled as a function `String → Option Nat`. -/
abbrev DateParser := String → Option Nat

/-- `is_date_expired` (src/utils/helpers.py, lines 90–106): parse the date
string; on failure return `false`; on success compare the parsed timestamp
with `datetime.now() + timedelta(days=days_offset)`. -/
def is_date_expired (parse : DateParser) (now : Nat) (date_string : String)
    (days_offset : Nat) : Bool :=
  match parse date_string with
  | none => false
  | some d => decide (d < now + days_offset * 86400)

/-- `Event.is_expired` (src/models/event.py, lines 52–62): the reference
date defaults to `datetime.now()` when not supplied; an unparseable date
is never expired. -/
def Event.is_expired (parse : DateParser) (now : Nat) (e : Event)
    (reference_date : Option Nat) : Bool :=
  let ref := reference_date.getD now
  match parse e.date with
  | none => false
  | some d => decide (d < ref)

/-- The guard of the expiry sweep loop: `event.status == "Active" and
is_date_expired(event.date, days_offset)`. -/
def expireGuard (parse : DateParser) (now : Nat) (days_offset : Nat) (e : Event) : Bool :=
  decide (e.status = "Active") && is_date_expired parse now e.date days_offset

/-- The body of `mark_expired_events`' loop (src/storage/excel_storage.py,
lines 251–255): events are visited in order; a guarded event is rewritten
to `Expired` with `last_updated = now` and the counter is incremented. -/
def sweepStep (parse : DateParser) (now : Nat) (days_offset : Nat)
    (acc : List Event × Nat) (e : Event) : List Event × Nat :=
  if expireGuard parse now days_offset e then
    (acc.1 ++ [{ e with status := "Expired", last_updated := now }], acc.2 + 1)
  else
    (acc.1 ++ [e], acc.2)

/-- `ExcelStorage.mark_expired_events` / `GoogleSheetsStorage.mark_expired_events`
(identical loops): returns the rewritten event list, the number of events
transitioned, and whether the set was persisted back (the code calls
`save_events` exactly when `expired_count > 0`). -/
def mark_expired_events (parse : DateParser) (now : Nat) (days_offset : Nat)
    (events : List Event) : List Event × Nat × Bool :=
  let r := events.foldl (sweepStep parse now days_offset) ([], 0)
  (r.1, r.2, decide (0 < r.2))

/-- `ExcelStorage.save_events` (src/storage/excel_storage.py, lines 84–140),
with the persistence backend abstracted: `loadResult` is what
`load_events` produced (`none` models a load that failed internally and
returned `[]`; the Python `load_events` catches its own exceptions and
returns an empty list), and `writeOk` is whether the workbook write
succeeded.  Returns the boolean outcome and the state actually persisted
(`none` when nothing was written). -/
def save_events (loadResult : Option (List Event)) (writeOk : Bool)
    (events : List Event) : Bool × Option (List Event) :=
  let existing := match loadResult with
    | some l => l
    | none => []
  let merged := merge_events events existing
  if writeOk then (true, some merged) else (false, none)

/-! ## MD5 and the identity function

`Event.generate_event_id` (src/models/event.py, lines 32–35) and
`generate_id` (src/utils/helpers.py, lines 15–17) both compute
`hashlib.md5(text.encode()).hexdigest()[:12]`.  The MD5 algorithm (RFC
1321) and the UTF-8 encoding of `str.encode()` are embedded below over
`Nat` with explicit reduction modulo `2 ^ 32`; bytes are naturals below
256. -/

/-- UTF-8 encoding of a single code point, as `str.encode()` produces it. -/
def utf8EncodeChar (c : Char) : List Nat :=
  let n := c.toNat
  if n < 128 then [n]
  else if n < 2048 then
    [192 ||| (n >>> 6), 128 ||| (n &&& 63)]
  else if n < 65536 then
    [224 ||| (n >>> 12), 128 ||| ((n >>> 6) &&& 63), 128 ||| (n &&& 63)]
  else
    [240 ||| (n >>> 18), 128 ||| ((n >>> 12) &&& 63),
     128 ||| ((n >>> 6) &&& 63), 128 ||| (n &&& 63)]

/-- `text.encode()`: the UTF-8 bytes of a string. -/
def utf8Bytes (s : String) : List Nat :=
  s.data.flatMap utf8EncodeChar

/-- 32-bit left rotation. -/
def rotl32 (x n : Nat) : Nat :=
  ((x <<< n) ||| (x >>> (32 - n))) % 4294967296

/-- The 64 MD5 sine-derived constants `K[i] = floor(2^32 * |sin(i+1)|)`. -/
def md5K : List Nat :=
  [3614090360, 3905402710, 606105819, 3250441966, 4118548399, 1200080426,
   2821735955, 4249261313, 1770035416, 2336552879, 4294925233, 2304563134,
   1804603682, 4254626195, 2792965006, 1236535329, 4129170786, 3225465664,
   643717713, 3921069994, 3593408605, 38016083, 3634488961, 3889429448,
   568446438, 3275163606, 4107603335, 1163531501, 2850285829, 4243563512,
   1735328473, 2368359562, 4294588738, 2272392833, 1839030562, 4259657740,
   2763975236, 1272893353, 4139469664, 3200236656, 681279174, 3936430074,
   3572445317, 76029189, 3654602809, 3873151461, 530742520, 3299628645,
   4096336452, 1126891415, 2878612391, 4237533241, 1700485571, 2399980690,
   4293915773, 2240044497, 1873313359, 4264355552, 2734768916, 1309151649,
   4149444226, 3174756917, 718787259, 3951481745]

/-- The per-round left-rotation amounts of MD5. -/
def md5S : List Nat :=
  [7, 12, 17, 22, 7, 12, 17, 22, 7, 12, 17, 22, 7, 12, 17, 22,
   5, 9, 14, 20, 5, 9, 14, 20, 5, 9, 14, 20, 5, 9, 14, 20,
   4, 11, 16, 23, 4, 11, 16, 23, 4, 11, 16, 23, 4, 11, 16, 23,
   6, 10, 15, 21, 6, 10, 15, 21, 6, 10, 15, 21, 6, 10, 15, 21]

/-- The MD5 nonlinear round function for round `i` on words `b c d`
(bitwise complement is taken inside 32 bits via xor with `2^32 - 1`). -/
def md5F (i b c d : Nat) : Nat :=
  if i < 16 then (b &&& c) ||| ((b ^^^ 4294967295) &&& d)
  else if i < 32 then (d &&& b) ||| ((d ^^^ 4294967295) &&& c)
  else if i < 48 then b ^^^ c ^^^ d
  else c ^^^ (b ||| (d ^^^ 4294967295))

/-- The message-word index accessed in round `i`. -/
def md5G (i : Nat) : Nat :=
  if i < 16 then i
  else if i < 32 then (5 * i + 1) % 16
  else if i < 48 then (3 * i + 5) % 16
  else (7 * i) % 16

/-- The little-endian 32-bit word starting at byte `4*j` of a chunk. -/
def chunkWord (chunk : List Nat) (j : Nat) : Nat :=
  chunk.getD (4 * j) 0 + 256 * chunk.getD (4 * j + 1) 0 +
    65536 * chunk.getD (4 * j + 2) 0 + 16777216 * chunk.getD (4 * j + 3) 0

/-- One of the 64 MD5 rounds, acting on the running quadruple. -/
def md5Round (chunk : List Nat) (st : Nat × Nat × Nat × Nat) (i : Nat) :
    Nat × Nat × Nat × Nat :=
  let a := st.1
  let b := st.2.1
  let c := st.2.2.1
  let d := st.2.2.2
  let f := (md5F i b c d + a + md5K.getD i 0 + chunkWord chunk (md5G i)) % 4294967296
  (d, (b + rotl32 f (md5S.getD i 0)) % 4294967296, b, c)

/-- Processing of one 64-byte chunk: run the 64 rounds and add the result
into the state, modulo `2 ^ 32`. -/
def md5Chunk (st : Nat × Nat × Nat × Nat) (chunk : List Nat) :
    Nat × Nat × Nat × Nat :=
  let r := (List.range 64).foldl (md5Round chunk) st
  ((st.1 + r.1) % 4294967296, (st.2.1 + r.2.1) % 4294967296,
   (st.2.2.1 + r.2.2.1) % 4294967296, (st.2.2.2 + r.2.2.2) % 4294967296)

/-- MD5 padding: a `0x80` byte, zeros up to 56 mod 64, then the bit length
modulo `2 ^ 64` in little-endian order. -/
def md5Pad (msg : List Nat) : List Nat :=
  let len := msg.length
  let z := (119 - len % 64) % 64
  msg ++ [128] ++ List.replicate z 0 ++
    (List.range 8).map (fun i => ((len * 8) >>> (8 * i)) % 256)

/-- Split a byte list into 64-byte chunks (fuel-based structural recursion;
with fuel at least the list's length this removes 64-byte slices until the
list is exhausted, each step consuming at least one element). -/
def chunksAux : Nat → List Nat → List (List Nat)
  | 0, _ => []
  | _, [] => []
  | fuel + 1, l => (l.take 64) :: chunksAux fuel (l.drop 64)

/-- Split a byte list into 64-byte chunks. -/
def chunks64 (l : List Nat) : List (List Nat) :=
  chunksAux l.length l

/-- The four bytes of a 32-bit word in little-endian order. -/
def wordLE (w : Nat) : List Nat :=
  [w % 256, (w >>> 8) % 256, (w >>> 16) % 256, (w >>> 24) % 256]

/-- The 16-byte MD5 digest of a byte string. -/
def md5Bytes (msg : List Nat) : List Nat :=
  let st := (chunks64 (md5Pad msg)).foldl md5Chunk
    (1732584193, 4023233417, 2562383102, 271733878)
  wordLE st.1 ++ wordLE st.2.1 ++ wordLE st.2.2.1 ++ wordLE st.2.2.2

/-- The lowercase hexadecimal digit characters. -/
def hexDigit (n : Nat) : Char :=
  [Char.ofNat 48, Char.ofNat 49, Char.ofNat 50, Char.ofNat 51, Char.ofNat 52,
   Char.ofNat 53, Char.ofNat 54, Char.ofNat 55, Char.ofNat 56, Char.ofNat 57,
   Char.ofNat 97, Char.ofNat 98, Char.ofNat 99, Char.ofNat 100,
   Char.ofNat 101, Char.ofNat 102].getD n (Char.ofNat 48)

/-- One byte rendered as two lowercase hex characters, as `hexdigest` does. -/
def byteHexChars (b : Nat) : List Char :=
  [hexDigit ((b / 16) % 16), hexDigit (b % 16)]

/-- `hashlib.md5(text.encode()).hexdigest()`: the 32-character lowercase
hexadecimal MD5 digest of a string. -/
def md5HexDigest (text : String) : String :=
  String.mk ((md5Bytes (utf8Bytes text)).flatMap byteHexChars)

/-- `generate_id` (src/utils/helpers.py, lines 15–17):
`hashlib.md5(text.encode()).hexdigest()[:12]`. -/
def generate_id (text : String) : String :=
  String.mk ((md5HexDigest text).data.take 12)

/-- `Event.generate_event_id` (src/models/event.py, lines 32–35): the MD5
digest prefix of `f"{event_name}_{date}_{venue}_{city}"`. -/
def Event.generate_event_id (e : Event) : String :=
  generate_id (e.event_name ++ "_" ++ e.date ++ "_" ++ e.venue ++ "_" ++ e.city)

/-! ## Abstraction vocabulary for the merge characterisation

`merge_events` is characterised per key: the record finally stored under a
key `k` is obtained from the seeded dict's entry for `k` by folding the
update/insert action over the sub-batch of incoming records keyed `k`. -/

/-- The action of one incoming record on the entry stored under its key:
update in place if present, insert otherwise (the two branches of the
loop body of `BaseStorage.merge_events`). -/
def applyOne : Option Event → Event → Option Event
  | some x, b => some { x with status := "Updated", last_updated := b.last_updated }
  | none, b => some b

/-- Folding `applyOne` over a sub-batch. -/
def applyBatch (o : Option Event) (bs : List Event) : Option Event :=
  bs.foldl applyOne o

/-- The incoming records of a batch carrying a given key, in batch order. -/
def matchesOf (batch : List Event) (k : String) : List Event :=
  batch.filter (fun e => e.event_id = k)

/-- The per-record effect of the expiry sweep: a guarded record is
transitioned to `Expired` at time `now`; any other record is untouched. -/
def sweepFun (parse : DateParser) (now days_offset : Nat) (e : Event) : Event :=
  if expireGuard parse now days_offset e then
    { e with status := "Expired", last_updated := now }
  else e

/-- Two events agreeing on every field except `status` and `last_updated`. -/
def sameCore (a b : Event) : Prop :=
  a.event_name = b.event_name ∧ a.date = b.date ∧ a.venue = b.venue ∧
    a.city = b.city ∧ a.category = b.category ∧ a.url = b.url ∧
    a.source = b.source ∧ a.event_id = b.event_id

instance (a b : Event) : Decidable (sameCore a b) := by
  unfold sameCore; infer_instance

/-- A lowercase hexadecimal character: a decimal digit or one of the
letters `a` through `f`. -/
def isLowerHexChar (c : Char) : Prop :=
  ('0' ≤ c ∧ c ≤ '9') ∨ ('a' ≤ c ∧ c ≤ 'f')

instance (c : Char) : Decidable (isLowerHexChar c) := by
  unfold isLowerHexChar; infer_instance

/-- The status transitions the specification allows: either no change, or
`Active → Updated`, or `Active → Expired`. -/
def claimedTransOK (old new : String) : Prop :=
  new = old ∨ (old = "Active" ∧ new = "Updated") ∨ (old = "Active" ∧ new = "Expired")

instance (old new : String) : Decidable (claimedTransOK old new) := by
  unfold claimedTransOK; infer_instance

/-- The transitions the merge loop actually performs on a stored record:
either no change, or a move to `Updated` (from any prior status). -/
def mergeTransOK (old new : String) : Prop :=
  new = old ∨ new = "Updated"

/-- The transitions the expiry sweep actually performs on a stored record:
either no change, or `Active → Expired`. -/
def sweepTransOK (old new : String) : Prop :=
  new = old ∨ (old = "Active" ∧ new = "Expired")

/-! ## Lemmas about lookup -/

theorem lookupEvent_eq_none_iff {d : List Event} {k : String} :
    lookupEvent d k = none ↔ k ∉ ids d := by
  induction d with
  | nil => simp [lookupEvent, ids]
  | cons e es ih =>
    unfold lookupEvent
    by_cases h : e.event_id = k
    · simp only [if_pos h, ids, List.map_cons]
      subst h
      simp
    · simp only [if_neg h, ids, List.map_cons, List.mem_cons]
      rw [ih]
      simp only [ids]
      constructor
      · intro hk hor
        rcases hor with hor | hor
        · exact h hor.symm
        · exact hk hor
      · intro hk hor
        exact hk (Or.inr hor)

theorem lookupEvent_mem {d : List Event} {k : String} {x : Event}
    (h : lookupEvent d k = some x) : x ∈ d ∧ x.event_id = k := by
  induction d with
  | nil => simp [lookupEvent] at h
  | cons e es ih =>
    by_cases he : e.event_id = k
    · simp [lookupEvent, he] at h
      subst h; exact ⟨List.mem_cons_self .., he⟩
    · simp [lookupEvent, he] at h
      rcases ih h with ⟨h1, h2⟩
      exact ⟨List.mem_cons_of_mem _ h1, h2⟩

theorem lookupEvent_of_mem_nodup {d : List Event} {x : Event}
    (hn : (ids d).Nodup) (hx : x ∈ d) : lookupEvent d x.event_id = some x := by
  induction d with
  | nil => simp at hx
  | cons e es ih =>
    rcases List.mem_cons.mp hx with rfl | hx
    · simp [lookupEvent]
    · have hne : e.event_id ≠ x.event_id := by
        intro hEq
        have : x.event_id ∈ ids es := List.mem_map_of_mem _ hx
        rw [← hEq] at this
        exact (List.nodup_cons.mp hn).1 this
      simp [lookupEvent, hne]
      exact ih (List.nodup_cons.mp hn).2 hx

theorem lookupEvent_append {d₁ d₂ : List Event} {k : String} :
    lookupEvent (d₁ ++ d₂) k =
      match lookupEvent d₁ k with
      | some x => some x
      | none => lookupEvent d₂ k := by
  induction d₁ with
  | nil => simp [lookupEvent]
  | cons e es ih =>
    by_cases h : e.event_id = k <;> simp [lookupEvent, h, ih]

theorem lookupEvent_map_id_preserving {d : List Event} {k : String}
    {f : Event → Event} (hf : ∀ e, (f e).event_id = e.event_id) :
    lookupEvent (d.map f) k = (lookupEvent d k).map f := by
  induction d with
  | nil => simp [lookupEvent]
  | cons e es ih =>
    simp only [List.map_cons]
    unfold lookupEvent
    rw [hf e]
    by_cases h : e.event_id = k
    · rw [if_pos h, if_pos h]
      rfl
    · rw [if_neg h, if_neg h, ih]

theorem any_id_iff {d : List Event} {k : String} :
    (d.any (fun x => x.event_id = k) = true) ↔ k ∈ ids d := by
  simp only [ids, List.any_eq_true]
  constructor
  · rintro ⟨x, hx, hpx⟩
    have hxk : x.event_id = k := of_decide_eq_true hpx
    exact hxk ▸ List.mem_map_of_mem _ hx
  · intro hk
    rcases List.mem_map.mp hk with ⟨x, hx, hxk⟩
    exact ⟨x, hx, decide_eq_true hxk⟩

/-! ## Lemmas about the seeded dict -/

theorem dictInsert_of_not_mem {d : List Event} {e : Event}
    (h : e.event_id ∉ ids d) : dictInsert d e = d ++ [e] := by
  induction d with
  | nil => rfl
  | cons x xs ih =>
    simp only [ids, List.map_cons, List.mem_cons, not_or] at h
    have hx : x.event_id ≠ e.event_id := fun hEq => h.1 hEq.symm
    simp only [dictInsert, if_neg hx, List.cons_append]
    rw [ih h.2]

theorem foldl_dictInsert_of_nodup :
    ∀ {l d : List Event}, (ids (d ++ l)).Nodup → l.foldl dictInsert d = d ++ l := by
  intro l
  induction l with
  | nil => intro d _; simp
  | cons x xs ih =>
    intro d hn
    have hn' : (ids d ++ x.event_id :: ids xs).Nodup := by
      simpa [ids] using hn
    rcases List.nodup_append.mp hn' with ⟨_, _, hdisj⟩
    have hx : x.event_id ∉ ids d := fun hmem =>
      hdisj hmem (List.mem_cons_self ..)
    rw [List.foldl_cons, dictInsert_of_not_mem hx, ih ?hrest]
    · simp
    case hrest =>
      rw [List.append_assoc, List.singleton_append]
      exact hn

theorem seedDict_eq_self {l : List Event} (h : (ids l).Nodup) : seedDict l = l := by
  have := foldl_dictInsert_of_nodup (l := l) (d := []) (by simpa using h)
  simpa [seedDict] using this

theorem mem_ids_dictInsert {d : List Event} {e : Event} {k : String} :
    k ∈ ids (dictInsert d e) ↔ k ∈ ids d ∨ k = e.event_id := by
  induction d with
  | nil => simp [dictInsert, ids]
  | cons x xs ih =>
    by_cases h : x.event_id = e.event_id
    · simp only [dictInsert, if_pos h, ids, List.map_cons, List.mem_cons]
      rw [h]
      tauto
    · simp only [dictInsert, if_neg h, ids, List.map_cons, List.mem_cons]
      rw [show (k ∈ List.map (fun e => e.event_id) (dictInsert xs e)) =
            (k ∈ ids (dictInsert xs e)) from rfl, ih]
      tauto

theorem mem_ids_seedDict {l : List Event} {k : String} :
    k ∈ ids (seedDict l) ↔ k ∈ ids l := by
  have main : ∀ (l d : List Event), k ∈ ids (l.foldl dictInsert d) ↔
      k ∈ ids d ∨ k ∈ ids l := by
    intro l
    induction l with
    | nil => intro d; simp [ids]
    | cons x xs ih =>
      intro d
      rw [List.foldl_cons, ih, mem_ids_dictInsert]
      simp only [ids, List.map_cons, List.mem_cons]
      tauto
  have := main l []
  simp only [seedDict]
  rw [this]
  simp [ids]

/-! ## Lemmas about the merge loop -/

theorem lookupEvent_mergeStep {d : List Event} {b : Event} {k : String} :
    lookupEvent (mergeStep d b) k =
      if b.event_id = k then applyOne (lookupEvent d k) b else lookupEvent d k := by
  unfold mergeStep
  by_cases hp : (d.any (fun x => x.event_id = b.event_id)) = true
  · rw [if_pos hp]
    have hmem : b.event_id ∈ ids d := any_id_iff.mp hp
    rw [lookupEvent_map_id_preserving
      (fun e => by by_cases h : e.event_id = b.event_id <;> simp [h])]
    by_cases hbk : b.event_id = k
    · rw [if_pos hbk]
      subst hbk
      cases hL : lookupEvent d b.event_id with
      | none => exact absurd hmem (lookupEvent_eq_none_iff.mp hL)
      | some x =>
        have hx := (lookupEvent_mem hL).2
        simp [applyOne, hx]
    · rw [if_neg hbk]
      cases hL : lookupEvent d k with
      | none => rfl
      | some x =>
        have hx : x.event_id ≠ b.event_id := by
          rw [(lookupEvent_mem hL).2]
          exact fun hEq => hbk hEq.symm
        simp [hx]
  · rw [if_neg hp]
    have habs : b.event_id ∉ ids d := fun hmem => hp (any_id_iff.mpr hmem)
    rw [lookupEvent_append]
    by_cases hbk : b.event_id = k
    · subst hbk
      rw [lookupEvent_eq_none_iff.mpr habs, if_pos rfl]
      show lookupEvent [b] b.event_id = applyOne none b
      simp [lookupEvent, applyOne]
    · rw [if_neg hbk]
      cases hL : lookupEvent d k with
      | none =>
        show lookupEvent [b] k = none
        simp [lookupEvent, hbk]
      | some x => rfl

theorem lookupEvent_foldl_mergeStep {batch : List Event} :
    ∀ {d : List Event} {k : String},
      lookupEvent (batch.foldl mergeStep d) k =
        applyBatch (lookupEvent d k) (matchesOf batch k) := by
  induction batch with
  | nil => intro d k; rfl
  | cons b bs ih =>
    intro d k
    rw [List.foldl_cons, ih]
    unfold matchesOf
    by_cases hbk : b.event_id = k
    · rw [List.filter_cons, if_pos (by simpa using hbk), lookupEvent_mergeStep, if_pos hbk]
      rfl
    · rw [List.filter_cons, if_neg (by simpa using hbk), lookupEvent_mergeStep, if_neg hbk]

theorem lookupEvent_merge_events {batch existing : List Event} {k : String} :
    lookupEvent (merge_events batch existing) k =
      applyBatch (lookupEvent (seedDict existing) k) (matchesOf batch k) :=
  lookupEvent_foldl_mergeStep

theorem ids_mergeStep_present {d : List Event} {b : Event}
    (h : b.event_id ∈ ids d) : ids (mergeStep d b) = ids d := by
  unfold mergeStep
  rw [if_pos (any_id_iff.mpr h)]
  simp only [ids, List.map_map]
  apply List.map_congr_left
  intro x _
  by_cases hx : x.event_id = b.event_id <;> simp [hx]

theorem ids_mergeStep_absent {d : List Event} {b : Event}
    (h : b.event_id ∉ ids d) : ids (mergeStep d b) = ids d ++ [b.event_id] := by
  unfold mergeStep
  rw [if_neg (fun hp => h (any_id_iff.mp hp))]
  simp [ids]

theorem nodup_ids_mergeStep {d : List Event} {b : Event}
    (h : (ids d).Nodup) : (ids (mergeStep d b)).Nodup := by
  by_cases hb : b.event_id ∈ ids d
  · rw [ids_mergeStep_present hb]
    exact h
  · rw [ids_mergeStep_absent hb]
    rw [List.nodup_append]
    exact ⟨h, List.nodup_singleton _, by
      intro a ha hmem
      rcases List.mem_singleton.mp hmem with rfl
      exact hb ha⟩

theorem nodup_ids_foldl_mergeStep {batch : List Event} :
    ∀ {d : List Event}, (ids d).Nodup → (ids (batch.foldl mergeStep d)).Nodup := by
  induction batch with
  | nil => intro d h; exact h
  | cons b bs ih =>
    intro d h
    rw [List.foldl_cons]
    exact ih (nodup_ids_mergeStep h)

theorem ids_subset_mergeStep {d : List Event} {b : Event} :
    ids d ⊆ ids (mergeStep d b) := by
  by_cases hb : b.event_id ∈ ids d
  · rw [ids_mergeStep_present hb]
    exact fun a ha => ha
  · rw [ids_mergeStep_absent hb]
    exact List.subset_append_left _ _

theorem ids_subset_foldl_mergeStep {batch : List Event} :
    ∀ {d : List Event}, ids d ⊆ ids (batch.foldl mergeStep d) := by
  induction batch with
  | nil => intro d; exact fun a ha => ha
  | cons b bs ih =>
    intro d
    rw [List.foldl_cons]
    exact fun a ha => ih (ids_subset_mergeStep ha)

theorem batch_mem_ids_foldl_mergeStep {batch : List Event} :
    ∀ {d : List Event} {b : Event}, b ∈ batch →
      b.event_id ∈ ids (batch.foldl mergeStep d) := by
  induction batch with
  | nil => intro d b h; simp at h
  | cons x xs ih =>
    intro d b h
    rw [List.foldl_cons]
    rcases List.mem_cons.mp h with rfl | h
    · apply ids_subset_foldl_mergeStep
      by_cases hb : b.event_id ∈ ids d
      · rw [ids_mergeStep_present hb]
        exact hb
      · rw [ids_mergeStep_absent hb]
        simp
    · exact ih h

theorem sameCore_refl (a : Event) : sameCore a a :=
  ⟨rfl, rfl, rfl, rfl, rfl, rfl, rfl, rfl⟩

theorem sameCore_trans {a b c : Event} (h1 : sameCore a b) (h2 : sameCore b c) :
    sameCore a c := by
  unfold sameCore at *
  obtain ⟨a1, a2, a3, a4, a5, a6, a7, a8⟩ := h1
  obtain ⟨b1, b2, b3, b4, b5, b6, b7, b8⟩ := h2
  exact ⟨a1.trans b1, a2.trans b2, a3.trans b3, a4.trans b4,
    a5.trans b5, a6.trans b6, a7.trans b7, a8.trans b8⟩

theorem forall₂_sameCore_refl (l : List Event) : List.Forall₂ sameCore l l :=
  List.forall₂_same.mpr fun x _ => sameCore_refl x

theorem forall₂_sameCore_trans : ∀ {a b c : List Event},
    List.Forall₂ sameCore a b → List.Forall₂ sameCore b c →
      List.Forall₂ sameCore a c := by
  intro a b c h1
  induction h1 generalizing c with
  | nil =>
    intro h2
    cases h2
    exact .nil
  | cons hab _ ih =>
    intro h2
    cases h2 with
    | cons hbc h2 => exact .cons (sameCore_trans hab hbc) (ih h2)

theorem core_mergeStep_present {d : List Event} {b : Event}
    (h : b.event_id ∈ ids d) : List.Forall₂ sameCore d (mergeStep d b) := by
  unfold mergeStep
  rw [if_pos (any_id_iff.mpr h)]
  rw [List.forall₂_map_right_iff]
  apply List.forall₂_same.mpr
  intro x _
  by_cases hx : x.event_id = b.event_id
  · simp only [if_pos hx]
    exact ⟨rfl, rfl, rfl, rfl, rfl, rfl, rfl, rfl⟩
  · simp only [if_neg hx]
    exact sameCore_refl x

theorem core_foldl_mergeStep {batch : List Event} :
    ∀ {d : List Event}, (∀ b ∈ batch, b.event_id ∈ ids d) →
      List.Forall₂ sameCore d (batch.foldl mergeStep d) ∧
        ids (batch.foldl mergeStep d) = ids d := by
  induction batch with
  | nil => intro d _; exact ⟨forall₂_sameCore_refl d, rfl⟩
  | cons b bs ih =>
    intro d h
    have hb : b.event_id ∈ ids d := h b (List.mem_cons_self ..)
    rw [List.foldl_cons]
    have h2 : ∀ x ∈ bs, x.event_id ∈ ids (mergeStep d b) := fun x hx =>
      (ids_mergeStep_present hb) ▸ h x (List.mem_cons_of_mem _ hx)
    rcases ih h2 with ⟨hc, hi⟩
    exact ⟨forall₂_sameCore_trans (core_mergeStep_present hb) hc,
      by rw [hi, ids_mergeStep_present hb]⟩

/-! ## Lemmas about the per-key action -/

theorem applyBatch_nil (o : Option Event) : applyBatch o [] = o := rfl

theorem applyBatch_getLast : ∀ {bs : List Event} {x b : Event},
    bs.getLast? = some b →
      applyBatch (some x) bs =
        some { x with status := "Updated", last_updated := b.last_updated } := by
  intro bs
  induction bs with
  | nil => intro x b h; simp at h
  | cons y ys ih =>
    intro x b h
    cases ys with
    | nil =>
      have hy : y = b := by simpa using h
      subst hy
      rfl
    | cons z zs =>
      have h2 : (z :: zs).getLast? = some b := by
        rw [← h]
        exact (List.getLast?_cons_cons ..).symm
      show applyBatch (applyOne (some x) y) (z :: zs) = _
      rw [show applyOne (some x) y =
        some { x with status := "Updated", last_updated := y.last_updated } from rfl]
      rw [ih h2]

theorem applyBatch_status_updated : ∀ {bs : List Event} {x : Event} {y : Event},
    bs ≠ [] → applyBatch (some x) bs = some y → y.status = "Updated" := by
  intro bs
  induction bs with
  | nil => intro x y h _; exact absurd rfl h
  | cons z zs ih =>
    intro x y _ happ
    cases zs with
    | nil =>
      have hxy : some { x with status := "Updated", last_updated := z.last_updated } =
          some y := happ
      cases hxy
      rfl
    | cons w ws =>
      have happ2 : applyBatch
          (some { x with status := "Updated", last_updated := z.last_updated })
          (w :: ws) = some y := happ
      exact ih (by simp) happ2

theorem mem_of_getLast?_eq_some {l : List Event} {a : Event}
    (h : l.getLast? = some a) : a ∈ l :=
  List.mem_of_mem_getLast? (by rw [h]; exact Option.mem_some_iff.mpr rfl)

theorem nodup_ids_dictInsert {d : List Event} {e : Event}
    (h : (ids d).Nodup) : (ids (dictInsert d e)).Nodup := by
  induction d with
  | nil => simp [dictInsert, ids]
  | cons x xs ih =>
    have h' : x.event_id ∉ ids xs ∧ (ids xs).Nodup := by
      rw [show ids (x :: xs) = x.event_id :: ids xs from rfl] at h
      exact List.nodup_cons.mp h
    rcases h' with ⟨hx, hxs⟩
    by_cases hc : x.event_id = e.event_id
    · simp only [dictInsert, if_pos hc, ids, List.map_cons]
      exact List.nodup_cons.mpr ⟨fun hmem => hx (hc ▸ hmem), hxs⟩
    · simp only [dictInsert, if_neg hc, ids, List.map_cons]
      refine List.nodup_cons.mpr ⟨fun hmem => ?_, ih hxs⟩
      rcases mem_ids_dictInsert.mp hmem with hmem | hmem
      · exact hx hmem
      · exact hc hmem

theorem nodup_ids_seedDict (l : List Event) : (ids (seedDict l)).Nodup := by
  have main : ∀ (l d : List Event), (ids d).Nodup →
      (ids (l.foldl dictInsert d)).Nodup := by
    intro l
    induction l with
    | nil => intro d h; exact h
    | cons x xs ih =>
      intro d h
      rw [List.foldl_cons]
      exact ih _ (nodup_ids_dictInsert h)
  exact main l [] (by simp [ids])

theorem nodup_ids_merge_events (batch existing : List Event) :
    (ids (merge_events batch existing)).Nodup :=
  nodup_ids_foldl_mergeStep (nodup_ids_seedDict existing)

/-! ## The expiry sweep, characterised -/

theorem sweep_foldl (parse : DateParser) (now days_offset : Nat) :
    ∀ (events acc : List Event) (n : Nat),
      events.foldl (sweepStep parse now days_offset) (acc, n) =
        (acc ++ events.map (sweepFun parse now days_offset),
         n + events.countP (expireGuard parse now days_offset)) := by
  intro events
  induction events with
  | nil => intro acc n; simp
  | cons e es ih =>
    intro acc n
    rw [List.foldl_cons]
    by_cases h : expireGuard parse now days_offset e = true
    · have hstep : sweepStep parse now days_offset (acc, n) e =
          (acc ++ [{ e with status := "Expired", last_updated := now }], n + 1) := by
        simp [sweepStep, h]
      rw [hstep, ih, List.map_cons, List.countP_cons]
      refine Prod.ext ?_ ?_
      · simp [sweepFun, h]
      · simp [h]
        omega
    · have hstep : sweepStep parse now days_offset (acc, n) e = (acc ++ [e], n) := by
        simp [sweepStep, h]
      rw [hstep, ih, List.map_cons, List.countP_cons]
      refine Prod.ext ?_ ?_
      · simp [sweepFun, h]
      · simp [h]

theorem mark_expired_events_eq (parse : DateParser) (now days_offset : Nat)
    (events : List Event) :
    mark_expired_events parse now days_offset events =
      (events.map (sweepFun parse now days_offset),
       events.countP (expireGuard parse now days_offset),
       decide (0 < events.countP (expireGuard parse now days_offset))) := by
  unfold mark_expired_events
  rw [sweep_foldl]
  simp

/-! ## Shape of the hexadecimal digest -/

theorem hexDigit_isLowerHex (n : Nat) : isLowerHexChar (hexDigit (n % 16)) := by
  have hlt : n % 16 < 16 := Nat.mod_lt _ (by norm_num)
  have hall : ∀ m, m < 16 → isLowerHexChar (hexDigit m) := by decide
  exact hall _ hlt

theorem byteHexChars_isLowerHex {b : Nat} {c : Char}
    (h : c ∈ byteHexChars b) : isLowerHexChar c := by
  simp only [byteHexChars, List.mem_cons, List.not_mem_nil, or_false] at h
  rcases h with rfl | rfl
  · exact hexDigit_isLowerHex (b / 16)
  · exact hexDigit_isLowerHex b

theorem length_wordLE (w : Nat) : (wordLE w).length = 4 := rfl

theorem length_md5Bytes (msg : List Nat) : (md5Bytes msg).length = 16 := by
  unfold md5Bytes
  simp [wordLE]

theorem length_flatMap_byteHexChars (bs : List Nat) :
    (bs.flatMap byteHexChars).length = 2 * bs.length := by
  induction bs with
  | nil => simp
  | cons b t ih =>
    simp only [List.flatMap_cons, List.length_append, ih, byteHexChars]
    simp
    omega

theorem md5HexDigest_length (s : String) : (md5HexDigest s).data.length = 32 := by
  show ((md5Bytes (utf8Bytes s)).flatMap byteHexChars).length = 32
  rw [length_flatMap_byteHexChars, length_md5Bytes]

theorem md5HexDigest_chars {s : String} {c : Char}
    (h : c ∈ (md5HexDigest s).data) : isLowerHexChar c := by
  have h2 : c ∈ (md5Bytes (utf8Bytes s)).flatMap byteHexChars := h
  rcases List.mem_flatMap.mp h2 with ⟨b, _, hc⟩
  exact byteHexChars_isLowerHex hc

theorem generate_id_length (text : String) : (generate_id text).data.length = 12 := by
  show ((md5HexDigest text).data.take 12).length = 12
  rw [List.length_take, md5HexDigest_length]
  decide

theorem generate_id_chars {text : String} {c : Char}
    (h : c ∈ (generate_id text).data) : isLowerHexChar c :=
  md5HexDigest_chars (List.mem_of_mem_take h)

theorem expireGuard_eq_true_iff {parse : DateParser} {now days_offset : Nat}
    {e : Event} :
    expireGuard parse now days_offset e = true ↔
      e.status = "Active" ∧ is_date_expired parse now e.date days_offset = true := by
  unfold expireGuard
  simp

theorem getLast?_cons_is_some : ∀ (b : Event) (bs : List Event),
    ∃ g, (b :: bs).getLast? = some g := by
  intro b bs
  induction bs generalizing b with
  | nil => exact ⟨b, rfl⟩
  | cons c cs ih =>
    rcases ih c with ⟨g, hg⟩
    exact ⟨g, by rw [List.getLast?_cons_cons]; exact hg⟩

/-! ## Sanity: RFC 1321 test vectors for the embedded MD5 -/

set_option maxRecDepth 8000 in
/-- Test vector: the MD5 digest of the empty string. -/
theorem md5HexDigest_empty :
    md5HexDigest "" = "d41d8cd98f00b204e9800998ecf8427e" := by decide

set_option maxRecDepth 8000 in
/-- Test vector: the MD5 digest of "abc". -/
theorem md5HexDigest_abc :
    md5HexDigest "abc" = "900150983cd24fb0d6963f7d28e17f72" := by decide

set_option maxRecDepth 8000 in
/-- The identifier of the spec's Scenario A key string. -/
theorem generate_id_sample :
    generate_id "Sample Event_2026-01-01_Test Venue_Mumbai" = "7e0958921cfc" := by
  decide

/-! ## The claims -/

/-- C5: for all string inputs (empty ones included) the identity function
succeeds and returns the first 12 characters of the lowercase hexadecimal
MD5 digest of `name + "_" + date + "_" + venue + "_" + city`; its output
has length 12, consists of lowercase hex characters, and is independent of
`category`, `url`, `source`, `status` (and of the other non-key fields). -/
theorem C5_identity_function
    (n d v c cat1 url1 src1 st1 cat2 url2 src2 st2 : String)
    (lu1 lu2 : Nat) (id1 id2 : String) :
    Event.generate_event_id ⟨n, d, v, c, cat1, url1, src1, st1, lu1, id1⟩ =
        String.mk ((md5HexDigest (n ++ "_" ++ d ++ "_" ++ v ++ "_" ++ c)).data.take 12) ∧
    (Event.generate_event_id ⟨n, d, v, c, cat1, url1, src1, st1, lu1, id1⟩).data.length = 12 ∧
    (∀ ch ∈ (Event.generate_event_id ⟨n, d, v, c, cat1, url1, src1, st1, lu1, id1⟩).data,
        isLowerHexChar ch) ∧
    Event.generate_event_id ⟨n, d, v, c, cat1, url1, src1, st1, lu1, id1⟩ =
      Event.generate_event_id ⟨n, d, v, c, cat2, url2, src2, st2, lu2, id2⟩ :=
  ⟨rfl, generate_id_length _, fun _ hch => generate_id_chars hch, rfl⟩

/-- C5 witness: the theorem applied at concrete field values. -/
theorem C5_identity_function_witness :
    (Event.generate_event_id
        ⟨"Sample Event", "2026-01-01", "Test Venue", "Mumbai",
          "Music", "http://a", "bookmyshow", "Active", 5, ""⟩).data.length = 12 ∧
    Event.generate_event_id
        ⟨"Sample Event", "2026-01-01", "Test Venue", "Mumbai",
          "Music", "http://a", "bookmyshow", "Active", 5, ""⟩ =
      Event.generate_event_id
        ⟨"Sample Event", "2026-01-01", "Test Venue", "Mumbai",
          "Comedy", "http://b", "district", "Expired", 9, "zz"⟩ := by
  have h := C5_identity_function "Sample Event" "2026-01-01" "Test Venue" "Mumbai"
    "Music" "http://a" "bookmyshow" "Active" "Comedy" "http://b" "district" "Expired"
    5 9 "" "zz"
  exact ⟨h.2.1, h.2.2.2⟩

/-- C6: `is_date_expired` returns `false` whenever the date string does not
parse; when it parses to `d`, it returns `true` iff `d` is strictly earlier
than `now + days_offset` days; and the reference clock of
`Event.is_expired` is injectable — with an explicit `reference_date` the
ambient clock is irrelevant. -/
theorem C6_expiry_evaluator (parse : DateParser) (now : Nat)
    (date_string : String) (days_offset : Nat) :
    (parse date_string = none →
        is_date_expired parse now date_string days_offset = false) ∧
    (∀ d, parse date_string = some d →
        (is_date_expired parse now date_string days_offset = true ↔
          d < now + days_offset * 86400)) ∧
    (∀ (e : Event) (now1 now2 ref : Nat),
        Event.is_expired parse now1 e (some ref) =
          Event.is_expired parse now2 e (some ref)) := by
  refine ⟨?_, ?_, ?_⟩
  · intro h
    unfold is_date_expired
    rw [h]
  · intro d h
    unfold is_date_expired
    rw [h]
    simp
  · intro e now1 now2 ref
    rfl

/-- C6 witness: an unparseable date is not expired, and a parseable past
date is expired, at concrete inputs. -/
theorem C6_expiry_evaluator_witness :
    is_date_expired (fun s => if s = "2020-01-01" then some 100 else none)
        1000 "TBA" 0 = false ∧
    (is_date_expired (fun s => if s = "2020-01-01" then some 100 else none)
        1000 "2020-01-01" 0 = true ↔ 100 < 1000 + 0 * 86400) := by
  have h := C6_expiry_evaluator
    (fun s => if s = "2020-01-01" then some 100 else none) 1000 "TBA" 0
  have h2 := C6_expiry_evaluator
    (fun s => if s = "2020-01-01" then some 100 else none) 1000 "2020-01-01" 0
  exact ⟨h.1 (by decide), h2.2.1 100 (by decide)⟩

/-- C8: `deduplicate_events` keeps exactly the records of the batch whose
id is absent from the existing set, in batch order (a sublist of the
batch), and its length is bounded by the batch's length. -/
theorem C8_deduplicate_exact (new_events existing_events : List Event) :
    List.Sublist (deduplicate_events new_events existing_events) new_events ∧
    (∀ e ∈ deduplicate_events new_events existing_events,
        e.event_id ∉ ids existing_events) ∧
    (∀ e ∈ new_events, e.event_id ∉ ids existing_events →
        e ∈ deduplicate_events new_events existing_events) ∧
    (deduplicate_events new_events existing_events).length ≤ new_events.length := by
  refine ⟨List.filter_sublist _, ?_, ?_, (List.filter_sublist _).length_le⟩
  · intro e he hmem
    have hp := (List.mem_filter.mp he).2
    rw [Bool.not_eq_true'] at hp
    have := any_id_iff.mpr hmem
    rw [hp] at this
    simp at this
  · intro e he hid
    refine List.mem_filter.mpr ⟨he, ?_⟩
    cases hb : existing_events.any (fun x => x.event_id = e.event_id) with
    | false => rfl
    | true => exact absurd (any_id_iff.mp hb) hid

/-- C8 witness: a batch record with a fresh id survives deduplication. -/
theorem C8_deduplicate_exact_witness :
    (⟨"E", "D", "V", "M", "C", "u", "s", "Active", 1, "e1"⟩ : Event) ∈
      deduplicate_events
        [⟨"E", "D", "V", "M", "C", "u", "s", "Active", 1, "e1"⟩]
        [⟨"F", "D", "V", "M", "C", "u", "s", "Active", 1, "e2"⟩] := by
  have h := C8_deduplicate_exact
    [⟨"E", "D", "V", "M", "C", "u", "s", "Active", 1, "e1"⟩]
    [⟨"F", "D", "V", "M", "C", "u", "s", "Active", 1, "e2"⟩]
  exact h.2.2.1 _ (by decide) (by decide)

/-- C9: the top-level save operation returns its write outcome as a
boolean; a failed load is treated exactly like an empty existing set (the
batch still proceeds through merge and write); a failed write returns
`false` and persists nothing; a successful write persists the merged set. -/
theorem C9_save_error_handling (events : List Event) (writeOk : Bool) :
    (∀ loadResult, (save_events loadResult writeOk events).1 = writeOk) ∧
    save_events none writeOk events = save_events (some []) writeOk events ∧
    (∀ loadResult, save_events loadResult false events = (false, none)) ∧
    (∀ existing, save_events (some existing) true events =
        (true, some (merge_events events existing))) := by
  refine ⟨?_, rfl, ?_, fun _ => rfl⟩
  · intro lr
    cases lr <;> cases writeOk <;> rfl
  · intro lr
    cases lr <;> rfl

/-- C10: a brand-new id occurring exactly twice in one batch is stored
once: the first occurrence is inserted and the second flips it to
`Updated` with the second occurrence's timestamp; merged ids are unique. -/
theorem C10_duplicate_in_batch (batch existing : List Event) (k : String)
    (b1 b2 : Event) (hk : k ∉ ids existing) (hm : matchesOf batch k = [b1, b2]) :
    lookupEvent (merge_events batch existing) k =
        some { b1 with status := "Updated", last_updated := b2.last_updated } ∧
    (ids (merge_events batch existing)).Nodup := by
  refine ⟨?_, nodup_ids_merge_events batch existing⟩
  rw [lookupEvent_merge_events, hm,
    lookupEvent_eq_none_iff.mpr (fun hmem => hk (mem_ids_seedDict.mp hmem))]
  rfl

/-- C10 witness: the theorem applied to a two-element batch sharing one
fresh id. -/
theorem C10_duplicate_in_batch_witness :
    lookupEvent (merge_events
        [⟨"E", "D", "V", "M", "C", "u", "s", "Active", 3, "e1"⟩,
         ⟨"E", "D", "V", "M", "C", "u", "s", "Active", 8, "e1"⟩] []) "e1" =
      some ⟨"E", "D", "V", "M", "C", "u", "s", "Updated", 8, "e1"⟩ := by
  have h := C10_duplicate_in_batch
    [⟨"E", "D", "V", "M", "C", "u", "s", "Active", 3, "e1"⟩,
     ⟨"E", "D", "V", "M", "C", "u", "s", "Active", 8, "e1"⟩] [] "e1"
    ⟨"E", "D", "V", "M", "C", "u", "s", "Active", 3, "e1"⟩
    ⟨"E", "D", "V", "M", "C", "u", "s", "Active", 8, "e1"⟩
    (by decide) (by decide)
  exact h.1

/-- C2: merging processes the batch over a mapping seeded with the
existing set: a stored record whose id never occurs in the batch is kept
verbatim; a stored record whose id occurs gets `status = "Updated"` and
the (last) incoming record's `last_updated`, all other fields untouched;
an incoming record with a fresh id occurring once is inserted as-is. -/
theorem C2_merge_behaviour (batch existing : List Event)
    (he : (ids existing).Nodup) :
    (∀ x ∈ existing, x.event_id ∉ ids batch →
        lookupEvent (merge_events batch existing) x.event_id = some x) ∧
    (∀ x ∈ existing, ∀ b : Event, (matchesOf batch x.event_id).getLast? = some b →
        lookupEvent (merge_events batch existing) x.event_id =
          some { x with status := "Updated", last_updated := b.last_updated }) ∧
    (∀ b : Event, b.event_id ∉ ids existing → matchesOf batch b.event_id = [b] →
        lookupEvent (merge_events batch existing) b.event_id = some b) := by
  have hseed : seedDict existing = existing := seedDict_eq_self he
  refine ⟨?_, ?_, ?_⟩
  · intro x hx hid
    rw [lookupEvent_merge_events, hseed, lookupEvent_of_mem_nodup he hx]
    rw [show matchesOf batch x.event_id = [] from List.filter_eq_nil_iff.mpr ?_]
    · rfl
    · intro e hee hp
      have hEq : e.event_id = x.event_id := of_decide_eq_true hp
      exact hid (hEq ▸ List.mem_map_of_mem _ hee)
  · intro x hx b hb
    rw [lookupEvent_merge_events, hseed, lookupEvent_of_mem_nodup he hx]
    exact applyBatch_getLast hb
  · intro b hb hm
    rw [lookupEvent_merge_events, hseed, lookupEvent_eq_none_iff.mpr hb, hm]
    rfl

/-- C2 witness: a re-scraped record is updated in place (Scenario B: same
id, existing `Active`, result `Updated` with the incoming timestamp), at
concrete inputs. -/
theorem C2_merge_behaviour_witness :
    lookupEvent (merge_events
        [⟨"E", "D", "V", "M", "C2", "u2", "s2", "Active", 9, "e1"⟩]
        [⟨"E", "D", "V", "M", "C", "u", "s", "Active", 5, "e1"⟩]) "e1" =
      some ⟨"E", "D", "V", "M", "C", "u", "s", "Updated", 9, "e1"⟩ := by
  have h := (C2_merge_behaviour
      [⟨"E", "D", "V", "M", "C2", "u2", "s2", "Active", 9, "e1"⟩]
      [⟨"E", "D", "V", "M", "C", "u", "s", "Active", 5, "e1"⟩]
      (by decide)).2.1
  exact h ⟨"E", "D", "V", "M", "C", "u", "s", "Active", 5, "e1"⟩ (by decide)
    ⟨"E", "D", "V", "M", "C2", "u2", "s2", "Active", 9, "e1"⟩ (by decide)

/-- C3: the expiry sweep rewrites exactly the records that are `Active`
with an expired date to `Expired` at time `now`, leaves every other record
unchanged, returns the number of records transitioned, and persists back
through the backend iff that count is positive. -/
theorem C3_expiry_sweep (parse : DateParser) (now days_offset : Nat)
    (events : List Event) :
    List.Forall₂ (fun e e2 =>
        (e.status = "Active" ∧ is_date_expired parse now e.date days_offset = true →
          e2 = { e with status := "Expired", last_updated := now }) ∧
        (¬(e.status = "Active" ∧ is_date_expired parse now e.date days_offset = true) →
          e2 = e))
      events (mark_expired_events parse now days_offset events).1 ∧
    (mark_expired_events parse now days_offset events).2.1 =
      events.countP (expireGuard parse now days_offset) ∧
    ((mark_expired_events parse now days_offset events).2.2 = true ↔
      0 < (mark_expired_events parse now days_offset events).2.1) := by
  rw [mark_expired_events_eq]
  refine ⟨?_, rfl, by simp⟩
  rw [List.forall₂_map_right_iff]
  apply List.forall₂_same.mpr
  intro e _
  constructor
  · intro ⟨h1, h2⟩
    unfold sweepFun
    rw [if_pos (expireGuard_eq_true_iff.mpr ⟨h1, h2⟩)]
  · intro hn
    unfold sweepFun
    rw [if_neg (fun hg => hn (expireGuard_eq_true_iff.mp hg))]

/-- C3 witness: on a single expired `Active` record the sweep transitions
it (Scenario C shape) and reports persistence. -/
theorem C3_expiry_sweep_witness :
    (mark_expired_events (fun _ => some 0) 100 0
        [⟨"E", "2020-01-01", "V", "M", "C", "u", "s", "Active", 5, "e1"⟩]).2.2 = true := by
  have h := C3_expiry_sweep (fun _ => some 0) 100 0
    [⟨"E", "2020-01-01", "V", "M", "C", "u", "s", "Active", 5, "e1"⟩]
  exact h.2.2.mpr (by decide)

/-- C1 counterexample: the merge loop moves an `Expired` record to
`Updated` when its id reappears in a batch — a transition outside the
claimed set (only `Active → Updated` and `Active → Expired`). -/
theorem C1_counterexample :
    (⟨"E", "D", "V", "M", "C", "u", "s", "Expired", 5, "e1"⟩ : Event).status =
        "Expired" ∧
    lookupEvent (merge_events
        [⟨"E", "D", "V", "M", "C", "u", "s", "Active", 9, "e1"⟩]
        [⟨"E", "D", "V", "M", "C", "u", "s", "Expired", 5, "e1"⟩]) "e1" =
      some ⟨"E", "D", "V", "M", "C", "u", "s", "Updated", 9, "e1"⟩ ∧
    ¬ claimedTransOK "Expired" "Updated" := by decide

/-- C1 amended: the merge loop either leaves a stored record's status
unchanged or moves it to `Updated` (whatever its prior status), the sweep
either leaves a status unchanged or moves `Active` to `Expired`, and
neither operation ever moves a record to `Active` that was not already
`Active`. -/
theorem C1_status_transitions (batch existing : List Event)
    (he : (ids existing).Nodup) (parse : DateParser) (now days_offset : Nat)
    (events : List Event) :
    (∀ x ∈ existing, ∀ y : Event,
        lookupEvent (merge_events batch existing) x.event_id = some y →
          mergeTransOK x.status y.status ∧
            (y.status = "Active" → x.status = "Active")) ∧
    List.Forall₂ (fun e e2 => sweepTransOK e.status e2.status ∧
        (e2.status = "Active" → e.status = "Active"))
      events (mark_expired_events parse now days_offset events).1 := by
  constructor
  · intro x hx y hy
    rw [lookupEvent_merge_events, seedDict_eq_self he,
      lookupEvent_of_mem_nodup he hx] at hy
    cases hbs : matchesOf batch x.event_id with
    | nil =>
      rw [hbs] at hy
      cases hy
      exact ⟨Or.inl rfl, fun h => h⟩
    | cons b bs =>
      rw [hbs] at hy
      have hupd : y.status = "Updated" := applyBatch_status_updated (by simp) hy
      refine ⟨Or.inr hupd, fun h => ?_⟩
      rw [hupd] at h
      exact absurd h (by decide)
  · rw [mark_expired_events_eq, List.forall₂_map_right_iff]
    apply List.forall₂_same.mpr
    intro e _
    unfold sweepFun
    by_cases hg : expireGuard parse now days_offset e = true
    · rw [if_pos hg]
      have hact : e.status = "Active" := (expireGuard_eq_true_iff.mp hg).1
      exact ⟨Or.inr ⟨hact, rfl⟩,
        fun h => absurd (show ("Expired" : String) = "Active" from h) (by decide)⟩
    · rw [if_neg hg]
      exact ⟨Or.inl rfl, fun h => h⟩

/-- C1 witness: the amended theorem applied at the counterexample's
inputs: the `Expired` record moved to `Updated`, an allowed merge
transition. -/
theorem C1_status_transitions_witness :
    mergeTransOK "Expired" "Updated" := by
  have h := (C1_status_transitions
      [⟨"E", "D", "V", "M", "C", "u", "s", "Active", 9, "e1"⟩]
      [⟨"E", "D", "V", "M", "C", "u", "s", "Expired", 5, "e1"⟩]
      (by decide) (fun _ => none) 0 0 []).1
  have h2 := h ⟨"E", "D", "V", "M", "C", "u", "s", "Expired", 5, "e1"⟩ (by decide)
    ⟨"E", "D", "V", "M", "C", "u", "s", "Updated", 9, "e1"⟩ (by decide)
  exact h2.1

/-- C4 counterexample: a fresh record inserted by the first merge carries
status `Active`, yet the second merge of the same batch changes it — so
the second merge does not only change records already marked `Updated`. -/
theorem C4_counterexample :
    merge_events [⟨"E", "D", "V", "M", "C", "u", "s", "Active", 7, "e1"⟩] [] =
        [⟨"E", "D", "V", "M", "C", "u", "s", "Active", 7, "e1"⟩] ∧
    merge_events [⟨"E", "D", "V", "M", "C", "u", "s", "Active", 7, "e1"⟩]
        (merge_events [⟨"E", "D", "V", "M", "C", "u", "s", "Active", 7, "e1"⟩] []) =
      [⟨"E", "D", "V", "M", "C", "u", "s", "Updated", 7, "e1"⟩] ∧
    (⟨"E", "D", "V", "M", "C", "u", "s", "Active", 7, "e1"⟩ : Event).status =
        "Active" ∧
    (⟨"E", "D", "V", "M", "C", "u", "s", "Updated", 7, "e1"⟩ : Event) ≠
      ⟨"E", "D", "V", "M", "C", "u", "s", "Active", 7, "e1"⟩ := by decide

/-- C4 amended: for inputs with pairwise distinct ids, the merged set has
no duplicate ids and keeps verbatim every existing record whose id is not
in the batch; re-merging the same batch changes only the `status` and
`last_updated` fields of the records whose id appears in the batch (each
ends up `Updated`), creating no entries and losing none. -/
theorem C4_merge_idempotent (batch existing : List Event)
    (hb : (ids batch).Nodup) (he : (ids existing).Nodup) :
    (ids (merge_events batch existing)).Nodup ∧
    (∀ x ∈ existing, x.event_id ∉ ids batch → x ∈ merge_events batch existing) ∧
    ids (merge_events batch (merge_events batch existing)) =
      ids (merge_events batch existing) ∧
    List.Forall₂ sameCore (merge_events batch existing)
      (merge_events batch (merge_events batch existing)) ∧
    (∀ y ∈ merge_events batch (merge_events batch existing),
        y.event_id ∉ ids batch → y ∈ merge_events batch existing) ∧
    (∀ y ∈ merge_events batch (merge_events batch existing),
        y.event_id ∈ ids batch → y.status = "Updated") := by
  have hm1nodup : (ids (merge_events batch existing)).Nodup :=
    nodup_ids_merge_events batch existing
  have hm2eq : merge_events batch (merge_events batch existing) =
      batch.foldl mergeStep (merge_events batch existing) := by
    show batch.foldl mergeStep (seedDict (merge_events batch existing)) = _
    rw [seedDict_eq_self hm1nodup]
  have hbatch_m1 : ∀ b2 ∈ batch, b2.event_id ∈ ids (merge_events batch existing) :=
    fun b2 hb2 => batch_mem_ids_foldl_mergeStep hb2
  rcases core_foldl_mergeStep (d := merge_events batch existing) hbatch_m1 with
    ⟨hcore, hids⟩
  have hm2nodup :
      (ids (merge_events batch (merge_events batch existing))).Nodup :=
    nodup_ids_merge_events _ _
  refine ⟨hm1nodup, ?_, ?_, ?_, ?_, ?_⟩
  · intro x hx hid
    have hlook : lookupEvent (merge_events batch existing) x.event_id = some x := by
      rw [lookupEvent_merge_events, seedDict_eq_self he,
        lookupEvent_of_mem_nodup he hx]
      rw [show matchesOf batch x.event_id = [] from List.filter_eq_nil_iff.mpr ?_]
      · rfl
      · intro e hee hp
        exact hid ((of_decide_eq_true hp) ▸ List.mem_map_of_mem _ hee)
    exact (lookupEvent_mem hlook).1
  · rw [hm2eq]
    exact hids
  · rw [hm2eq]
    exact hcore
  · intro y hy hid
    have hlooky := lookupEvent_of_mem_nodup hm2nodup hy
    rw [lookupEvent_merge_events, seedDict_eq_self hm1nodup] at hlooky
    rw [show matchesOf batch y.event_id = [] from List.filter_eq_nil_iff.mpr (by
      intro e hee hp
      exact hid ((of_decide_eq_true hp) ▸ List.mem_map_of_mem _ hee))] at hlooky
    rw [applyBatch_nil] at hlooky
    exact (lookupEvent_mem hlooky).1
  · intro y hy hid
    have hlooky := lookupEvent_of_mem_nodup hm2nodup hy
    rw [lookupEvent_merge_events, seedDict_eq_self hm1nodup] at hlooky
    rcases List.mem_map.mp hid with ⟨b2, hb2, hb2id⟩
    have hbmem : b2 ∈ matchesOf batch y.event_id :=
      List.mem_filter.mpr ⟨hb2, decide_eq_true hb2id⟩
    cases hL : lookupEvent (merge_events batch existing) y.event_id with
    | none =>
      exact absurd (hb2id ▸ hbatch_m1 b2 hb2) (lookupEvent_eq_none_iff.mp hL)
    | some x0 =>
      rw [hL] at hlooky
      exact applyBatch_status_updated (List.ne_nil_of_mem hbmem) hlooky

/-- C4 witness: the amended theorem applied to a one-record batch against
an empty existing set: the re-merged record is `Updated`. -/
theorem C4_merge_idempotent_witness :
    (⟨"E", "D", "V", "M", "C", "u", "s", "Updated", 7, "e1"⟩ : Event).status =
      "Updated" := by
  have h := (C4_merge_idempotent
      [⟨"E", "D", "V", "M", "C", "u", "s", "Active", 7, "e1"⟩] []
      (by decide) (by decide)).2.2.2.2.2
  exact h ⟨"E", "D", "V", "M", "C", "u", "s", "Updated", 7, "e1"⟩
    (by decide) (by decide)

/-- C7 counterexample: the merge loop copies the incoming record's
`last_updated` unconditionally, so a batch carrying an older timestamp
makes a stored record's `last_updated` decrease (5 to 3 here). -/
theorem C7_counterexample :
    (⟨"E", "D", "V", "M", "C", "u", "s", "Active", 5, "e1"⟩ : Event).last_updated
        = 5 ∧
    lookupEvent (merge_events
        [⟨"E", "D", "V", "M", "C", "u", "s", "Active", 3, "e1"⟩]
        [⟨"E", "D", "V", "M", "C", "u", "s", "Active", 5, "e1"⟩]) "e1" =
      some ⟨"E", "D", "V", "M", "C", "u", "s", "Updated", 3, "e1"⟩ ∧
    (3 : Nat) < 5 := by decide

/-- C7 amended: provided every incoming record's `last_updated` is at
least every stored record's (the engine stamps fresh scrapes with the
current time), a merge never decreases a stored record's `last_updated`. -/
theorem C7_last_updated_monotone (batch existing : List Event)
    (he : (ids existing).Nodup)
    (hfresh : ∀ b ∈ batch, ∀ x ∈ existing, x.last_updated ≤ b.last_updated) :
    ∀ x ∈ existing, ∀ y : Event,
      lookupEvent (merge_events batch existing) x.event_id = some y →
        x.last_updated ≤ y.last_updated := by
  intro x hx y hy
  rw [lookupEvent_merge_events, seedDict_eq_self he,
    lookupEvent_of_mem_nodup he hx] at hy
  cases hbs : matchesOf batch x.event_id with
  | nil =>
    rw [hbs, applyBatch_nil] at hy
    cases hy
    exact le_refl _
  | cons b bs =>
    rw [hbs] at hy
    rcases getLast?_cons_is_some b bs with ⟨g, hg⟩
    rw [applyBatch_getLast hg] at hy
    cases hy
    have hgmem : g ∈ matchesOf batch x.event_id :=
      hbs ▸ mem_of_getLast?_eq_some hg
    exact hfresh g (List.mem_filter.mp hgmem).1 x hx

/-- C7 witness: the amended theorem at concrete inputs where the incoming
timestamp (9) is at least the stored one (5). -/
theorem C7_last_updated_monotone_witness :
    (⟨"E", "D", "V", "M", "C", "u", "s", "Active", 5, "e1"⟩ : Event).last_updated ≤
      (⟨"E", "D", "V", "M", "C", "u", "s", "Updated", 9, "e1"⟩ : Event).last_updated :=
  C7_last_updated_monotone
    [⟨"E", "D", "V", "M", "C", "u", "s", "Active", 9, "e1"⟩]
    [⟨"E", "D", "V", "M", "C", "u", "s", "Active", 5, "e1"⟩]
    (by decide) (by decide)
    ⟨"E", "D", "V", "M", "C", "u", "s", "Active", 5, "e1"⟩ (by decide)
    ⟨"E", "D", "V", "M", "C", "u", "s", "Updated", 9, "e1"⟩ (by decide)

end ScrapperTool
